import Mathlib

/-!
Verification development for the student-management-dashboard repository
(src/src/App.js). JavaScript strings are modelled as `List Char`; the
`Date.now()` clock is modelled as an explicit `now : Nat` argument; the
one network call is modelled by an inductive type of observable fetch
outcomes. All definitions are translated from the source file.
-/

namespace App

/-- Model of the JavaScript regex class `\s` (whitespace): the WhiteSpace
and LineTerminator code points matched by `\s` in ECMAScript. -/
def isWs (c : Char) : Bool :=
  let n := c.toNat
  n == 32 || n == 9 || n == 10 || n == 13 || n == 11 || n == 12 ||
  n == 0xa0 || n == 0x1680 ||
  (decide (0x2000 ≤ n) && decide (n ≤ 0x200a)) ||
  n == 0x2028 || n == 0x2029 || n == 0x202f || n == 0x205f ||
  n == 0x3000 || n == 0xfeff

/-- The character class `[^\s@]` used in the email regex of
src/src/App.js line 90: any character that is neither whitespace nor `@`. -/
def emailChar (c : Char) : Bool :=
  !isWs c && !(c == '@')

/-- Model of JavaScript `String.prototype.trim`: strip `\s` characters from
both ends. -/
def jsTrim (s : List Char) : List Char :=
  ((s.dropWhile isWs).reverse.dropWhile isWs).reverse

/-- Model of JavaScript `String.prototype.toLowerCase` (ASCII case folding). -/
def jsToLower (s : List Char) : List Char :=
  s.map Char.toLower

/-- Split a character list at the first occurrence of `ch`: returns the part
before and the part after that occurrence, or `none` when `ch` is absent. -/
def splitAtChar (ch : Char) : List Char → Option (List Char × List Char)
  | [] => none
  | c :: cs =>
    if c = ch then some ([], cs)
    else
      match splitAtChar ch cs with
      | none => none
      | some (a, b) => some (c :: a, b)

/-- Embeds `validateEmail` (src/src/App.js lines 89-92), i.e. the test of the
anchored regex `[^\s@]+@[^\s@]+\.[^\s@]+` against the whole string: the input
splits at its unique `@` into a non-empty local part of `[^\s@]` characters
and a remainder of `[^\s@]` characters containing a `.` that has at least one
character on each side. `validateEmail_iff` below proves this function
equivalent to the decomposition semantics of the regex
(`codeEmailPattern`). -/
def validateEmail (email : List Char) : Bool :=
  match splitAtChar '@' email with
  | none => false
  | some (loc, rest) =>
    !loc.isEmpty && loc.all emailChar && rest.all emailChar &&
    ((rest.drop 1).dropLast).any (fun c => c == '.')

/-- The denotation of the source regex `^[^\s@]+@[^\s@]+\.[^\s@]+$`
(src/src/App.js line 90): the string decomposes as
`x ++ "@" ++ y ++ "." ++ z` with `x`, `y`, `z` non-empty and all of their
characters in the class `[^\s@]`. -/
def codeEmailPattern (s : List Char) : Prop :=
  ∃ x y z : List Char,
    s = x ++ '@' :: (y ++ '.' :: z) ∧ x ≠ [] ∧ y ≠ [] ∧ z ≠ [] ∧
    x.all emailChar = true ∧ y.all emailChar = true ∧ z.all emailChar = true

/-- The email pattern exactly as the specification words it: one or more
non-whitespace non-`@` characters, `@`, one or more non-whitespace non-`@`
characters, `.`, then one or more non-whitespace characters (the last
segment is NOT required to avoid `@`). Stated from the spec's words for
comparison with `codeEmailPattern`. -/
def specEmailPattern (s : List Char) : Prop :=
  ∃ x y z : List Char,
    s = x ++ '@' :: (y ++ '.' :: z) ∧ x ≠ [] ∧ y ≠ [] ∧ z ≠ [] ∧
    x.all emailChar = true ∧ y.all emailChar = true ∧
    z.all (fun c => !isWs c) = true

/-- The form data handled by `StudentForm` (src/src/App.js lines 117-122):
name, email, course and profileImage fields. -/
structure FormData where
  name : List Char
  email : List Char
  course : List Char
  profileImage : List Char
  deriving DecidableEq

/-- A saved student record: the form fields plus the assigned `id`. -/
structure Student where
  id : Nat
  name : List Char
  email : List Char
  course : List Char
  profileImage : List Char
  deriving DecidableEq

/-- The validation-errors object built by `validateStudent`
(src/src/App.js lines 94-112): at most one message per field. -/
structure VErrors where
  name : Option String
  email : Option String
  course : Option String
  deriving DecidableEq

def nameRequiredMsg : String := "Name is required"

def emailRequiredMsg : String := "Email is required"

def emailInvalidMsg : String := "Please enter a valid email address"

def courseRequiredMsg : String := "Please select a course"

/-- Embeds `validateStudent` (src/src/App.js lines 94-112). The three field
rules are independent `if` statements in the source; `!student.name.trim()`
is falsiness of the trimmed name (empty string), `!student.course` is
falsiness of the raw course string. -/
def validateStudent (student : FormData) : VErrors :=
  { name := if jsTrim student.name = [] then some nameRequiredMsg else none
    email :=
      if jsTrim student.email = [] then some emailRequiredMsg
      else if validateEmail student.email then none else some emailInvalidMsg
    course := if student.course = [] then some courseRequiredMsg else none }

/-- `Object.keys(validationErrors).length > 0` (src/src/App.js line 139):
some field carries an error. -/
def hasErrors (e : VErrors) : Bool :=
  e.name.isSome || e.email.isSome || e.course.isSome

/-- An item of the JSON array returned by the course endpoint: an id plus
optional `name`, `courseName` and `title` fields (`none` = absent). -/
structure RawCourse where
  id : Nat
  name : Option (List Char)
  courseName : Option (List Char)
  title : Option (List Char)
  deriving DecidableEq

/-- A normalized course `{id, name}` (src/src/App.js lines 55-58). The
`name` stays optional because `course.name || course.courseName ||
course.title` is `undefined` when every source field is falsy. -/
structure Course where
  id : Nat
  name : Option (List Char)
  deriving DecidableEq

/-- JavaScript truthiness of an optional string: absent and the empty
string are falsy. -/
def jsTruthy : Option (List Char) → Bool
  | none => false
  | some s => !s.isEmpty

/-- JavaScript `a || b` on optional strings: `a` when truthy, else `b`. -/
def jsOr (a b : Option (List Char)) : Option (List Char) :=
  if jsTruthy a then a else b

/-- The normalization lambda of `StudentAPI.fetchCourses`
(src/src/App.js lines 55-58):
`{ id: course.id, name: course.name || course.courseName || course.title }`. -/
def normalizeCourse (c : RawCourse) : Course :=
  { id := c.id, name := jsOr (jsOr c.name c.courseName) c.title }

/-- The hardcoded fallback array of `StudentAPI.fetchCourses`
(src/src/App.js lines 65-70). -/
def fallbackCourses : List Course :=
  [⟨1, some "HTML Basics".data⟩, ⟨2, some "CSS Mastery".data⟩,
   ⟨3, some "JavaScript Pro".data⟩, ⟨4, some "React In Depth".data⟩]

/-- The observable outcomes of the HTTP GET inside
`StudentAPI.fetchCourses` (src/src/App.js lines 40-72): the fetch resolves
with an ok status and a well-formed JSON array (`success`), or the response
status is not ok (line 47 throws), or the fetch itself rejects, or the body
fails to parse as an array (line 51 or the `.map` on a non-array throws).
Every non-success case lands in the `catch` block. -/
inductive FetchOutcome where
  | success (items : List RawCourse)
  | httpError (status : Nat)
  | networkError
  | malformedBody
  deriving DecidableEq

/-- Embeds `StudentAPI.fetchCourses` (src/src/App.js lines 40-72) as a
function of the fetch outcome: on success the items are normalized, on any
failure the `catch` block returns the fallback array. The function is
total — no error escapes to the caller. -/
def fetchCourses : FetchOutcome → List Course
  | .success items => items.map normalizeCourse
  | _ => fallbackCourses

/-- Build the student object `{ ...studentData, id }`. -/
def mkStudent (fd : FormData) (newId : Nat) : Student :=
  { id := newId, name := fd.name, email := fd.email,
    course := fd.course, profileImage := fd.profileImage }

/-- Embeds `StudentAPI.addStudent` (src/src/App.js lines 74-79):
`{ ...student, id: Date.now() }`, with the millisecond clock reading passed
explicitly as `now`. -/
def addStudent (fd : FormData) (now : Nat) : Student :=
  mkStudent fd now

/-- The add branch of `handleSaveStudent` (src/src/App.js lines 433-434):
`setStudents(prev => [...prev, newStudent])`. -/
def appendStudent (students : List Student) (fd : FormData) (now : Nat) :
    List Student :=
  students ++ [addStudent fd now]

/-- The update branch of `handleSaveStudent` (src/src/App.js lines 426-430):
`StudentAPI.updateStudent({...studentData, id: editingStudent.id})` followed
by `setStudents(prev => prev.map(s => s.id === editingStudent.id ?
updatedStudent : s))`. -/
def replaceStudent (students : List Student) (eid : Nat) (fd : FormData) :
    List Student :=
  students.map (fun s => if s.id = eid then mkStudent fd eid else s)

/-- Whether the form is saving a new student (`editingStudent` null) or
updating an existing one (src/src/App.js line 424). -/
inductive Mode where
  | create
  | update (editingId : Nat)
  deriving DecidableEq

/-- Embeds `handleSaveStudent` (src/src/App.js lines 422-443): append in
create mode, replace by id in update mode. -/
def handleSaveStudent (mode : Mode) (students : List Student)
    (fd : FormData) (now : Nat) : List Student :=
  match mode with
  | .create => appendStudent students fd now
  | .update eid => replaceStudent students eid fd

/-- Embeds `StudentForm.handleSubmit` (src/src/App.js lines 135-154)
composed with `handleSaveStudent`: when validation yields any error the
errors are surfaced (`setErrors`) and the submit returns without calling
`onSave`, leaving the student list untouched; otherwise the save runs.
The result pairs the surfaced errors with the resulting student list. -/
def handleSubmit (mode : Mode) (students : List Student) (fd : FormData)
    (now : Nat) : VErrors × List Student :=
  let errs := validateStudent fd
  if hasErrors errs then (errs, students)
  else (⟨none, none, none⟩, handleSaveStudent mode students fd now)

/-- `sub` occurs at the head of `s` (helper for the model of
`String.prototype.includes`). -/
def startsWith : List Char → List Char → Bool
  | _, [] => true
  | [], _ :: _ => false
  | c :: s, d :: sub => c == d && startsWith s sub

/-- Model of JavaScript `s.includes(sub)`: `sub` occurs contiguously
somewhere in `s`. -/
def jsIncludes : List Char → List Char → Bool
  | [], sub => sub.isEmpty
  | c :: cs, sub => startsWith (c :: cs) sub || jsIncludes cs sub

/-- The filter predicate of `filteredStudents` (src/src/App.js lines
405-409): the lowercased name, email or course contains the lowercased
search term. -/
def studentMatches (searchTerm : List Char) (s : Student) : Bool :=
  jsIncludes (jsToLower s.name) (jsToLower searchTerm) ||
  jsIncludes (jsToLower s.email) (jsToLower searchTerm) ||
  jsIncludes (jsToLower s.course) (jsToLower searchTerm)

/-- Embeds the `filteredStudents` memo (src/src/App.js lines 402-410):
`if (!searchTerm) return students;` then `students.filter(...)`. -/
def filteredStudents (students : List Student) (searchTerm : List Char) :
    List Student :=
  if searchTerm.isEmpty then students
  else students.filter (studentMatches searchTerm)

end App

namespace App

/- ### Helper lemmas -/

theorem jsOr_jsOr (a b c : Option (List Char)) :
    jsOr (jsOr a b) c =
      if jsTruthy a then a else if jsTruthy b then b else c := by
  by_cases ha : jsTruthy a <;> by_cases hb : jsTruthy b <;>
    simp [jsOr, ha, hb]

theorem jsTrim_eq_nil_of_all_ws (l : List Char) (h : l.all isWs = true) :
    jsTrim l = [] := by
  have h1 : l.dropWhile isWs = [] := by
    rw [List.dropWhile_eq_nil_iff]
    intro x hx
    exact List.all_eq_true.mp h x hx
  simp [jsTrim, h1]

/- ### Claim theorems -/

/-- C1: the source assigns `id: Date.now()` to a new student
(src/src/App.js line 78) with no disjointness check against existing ids.
Two saves whose `Date.now()` reads fall in the same millisecond therefore
append students with equal ids: evaluating the model at such a failing
input yields a roster whose id list is `[t, t]`, refuting the claimed
invariant that an appended id is always distinct from all existing ids. -/
theorem C1_duplicate_ids :
    (appendStudent
        (appendStudent []
          ⟨"Jane Doe".data, "jane@doe.com".data, "HTML Basics".data, []⟩
          1700000000000)
        ⟨"John Roe".data, "john@roe.com".data, "CSS Mastery".data, []⟩
        1700000000000).map Student.id = [1700000000000, 1700000000000] ∧
    ¬ ((appendStudent
        (appendStudent []
          ⟨"Jane Doe".data, "jane@doe.com".data, "HTML Basics".data, []⟩
          1700000000000)
        ⟨"John Roe".data, "john@roe.com".data, "CSS Mastery".data, []⟩
        1700000000000).map Student.id).Nodup := by
  constructor
  · rfl
  · decide

/-- C2: on every non-success outcome of the course fetch (non-ok HTTP
status, network error, malformed body) `fetchCourses` returns exactly the
four-entry fallback list, in order, and returns normally (the function is
total, so no error reaches the caller). -/
theorem C2_fallback (o : FetchOutcome)
    (h : ∀ items, o ≠ FetchOutcome.success items) :
    fetchCourses o =
      [⟨1, some "HTML Basics".data⟩, ⟨2, some "CSS Mastery".data⟩,
       ⟨3, some "JavaScript Pro".data⟩, ⟨4, some "React In Depth".data⟩] := by
  cases o with
  | success items => exact absurd rfl (h items)
  | httpError status => rfl
  | networkError => rfl
  | malformedBody => rfl

/-- C2 witness: an HTTP 500 outcome yields exactly the four fallback
courses. -/
theorem C2_fallback_witness :
    (∀ items, FetchOutcome.httpError 500 ≠ FetchOutcome.success items) ∧
    fetchCourses (FetchOutcome.httpError 500) =
      [⟨1, some "HTML Basics".data⟩, ⟨2, some "CSS Mastery".data⟩,
       ⟨3, some "JavaScript Pro".data⟩, ⟨4, some "React In Depth".data⟩] :=
  ⟨fun _ h => FetchOutcome.noConfusion h,
   C2_fallback (FetchOutcome.httpError 500)
     (fun _ h => FetchOutcome.noConfusion h)⟩

/-- C4: whenever validation of the submitted form data produces at least
one field error, `handleSubmit` surfaces exactly those errors and returns
the student list unchanged (so in an edit the student being edited keeps
every original field, including its email). -/
theorem C4_abort_on_errors (mode : Mode) (students : List Student)
    (fd : FormData) (now : Nat)
    (h : hasErrors (validateStudent fd) = true) :
    handleSubmit mode students fd now = (validateStudent fd, students) := by
  simp [handleSubmit, h]

/-- C4 witness: editing the student with id 7 while changing the email to
"bad-email" surfaces an email validation error and leaves the roster — in
particular student 7's original email — unchanged. -/
theorem C4_abort_on_errors_witness :
    hasErrors (validateStudent
      ⟨"Jane".data, "bad-email".data, "HTML Basics".data, []⟩) = true ∧
    (validateStudent
      ⟨"Jane".data, "bad-email".data, "HTML Basics".data, []⟩).email =
        some emailInvalidMsg ∧
    handleSubmit (Mode.update 7)
        [⟨7, "Jane".data, "jane@doe.com".data, "HTML Basics".data, []⟩]
        ⟨"Jane".data, "bad-email".data, "HTML Basics".data, []⟩ 1700000000000 =
      (validateStudent ⟨"Jane".data, "bad-email".data, "HTML Basics".data, []⟩,
       [⟨7, "Jane".data, "jane@doe.com".data, "HTML Basics".data, []⟩]) :=
  ⟨by decide, by decide,
   C4_abort_on_errors (Mode.update 7)
     [⟨7, "Jane".data, "jane@doe.com".data, "HTML Basics".data, []⟩]
     ⟨"Jane".data, "bad-email".data, "HTML Basics".data, []⟩ 1700000000000
     (by decide)⟩

/-- C6: with the empty search term the derivation is the identity —
`filteredStudents` returns the student list unchanged in content and
order. -/
theorem C6_empty_term_identity (students : List Student) :
    filteredStudents students [] = students := rfl

/-- C9: on a successful fetch every returned item is normalized to
`{id, name}` with the id preserved and the name taken from the item's
`name`, `courseName` or `title` field in that preference order, the first
truthy (present and non-empty) field winning. -/
theorem C9_normalization (items : List RawCourse) :
    fetchCourses (FetchOutcome.success items) =
      items.map (fun c =>
        { id := c.id
          name := if jsTruthy c.name then c.name
                  else if jsTruthy c.courseName then c.courseName
                  else c.title }) := by
  have h : normalizeCourse = fun c =>
      ({ id := c.id
         name := if jsTruthy c.name then c.name
                 else if jsTruthy c.courseName then c.courseName
                 else c.title } : Course) := by
    funext c
    simp [normalizeCourse, jsOr_jsOr]
  show items.map normalizeCourse = _
  rw [h]

/-- C10: a course value that is non-empty but consists only of whitespace
passes validation with no course error, even though its trimmed form is
empty — the course rule tests only truthiness of the raw string, without
the trimming the name rule applies. -/
theorem C10_whitespace_course_passes (st : FormData)
    (h1 : st.course ≠ []) (h2 : st.course.all isWs = true) :
    (validateStudent st).course = none ∧ jsTrim st.course = [] := by
  refine ⟨?_, jsTrim_eq_nil_of_all_ws st.course h2⟩
  simp [validateStudent, h1]

/-- C10 witness: a course field of three spaces is accepted. -/
theorem C10_whitespace_course_passes_witness :
    ("   ".data ≠ ([] : List Char)) ∧ "   ".data.all isWs = true ∧
    (validateStudent
      ⟨"Jane".data, "jane@doe.com".data, "   ".data, []⟩).course = none ∧
    jsTrim "   ".data = [] :=
  ⟨by decide, by decide,
   (C10_whitespace_course_passes
     ⟨"Jane".data, "jane@doe.com".data, "   ".data, []⟩
     (by decide) (by decide)).1,
   (C10_whitespace_course_passes
     ⟨"Jane".data, "jane@doe.com".data, "   ".data, []⟩
     (by decide) (by decide)).2⟩

/-- C8: each field rule of `validateStudent` is characterized solely by
its own field — a name error is present exactly when the trimmed name is
empty, an email error exactly when the trimmed email is empty or the
regex test fails, a course error exactly when the course is empty — so
the rules are evaluated independently and every applicable error appears
together in the returned mapping (no short-circuiting between fields). -/
theorem C8_independent_rules (st : FormData) :
    ((validateStudent st).name.isSome ↔ jsTrim st.name = []) ∧
    ((validateStudent st).email.isSome ↔
      (jsTrim st.email = [] ∨ validateEmail st.email = false)) ∧
    ((validateStudent st).course.isSome ↔ st.course = []) := by
  refine ⟨?_, ?_, ?_⟩
  · by_cases h : jsTrim st.name = [] <;> simp [validateStudent, h]
  · by_cases h1 : jsTrim st.email = []
    · simp [validateStudent, h1]
    · by_cases h2 : validateEmail st.email <;>
        simp [validateStudent, h1, h2]
  · by_cases h : st.course = [] <;> simp [validateStudent, h]

end App

namespace App

theorem startsWith_iff (sub : List Char) :
    ∀ s : List Char, startsWith s sub = true ↔ ∃ t, s = sub ++ t := by
  induction sub with
  | nil =>
    intro s
    simp [startsWith]
  | cons d ds ih =>
    intro s
    cases s with
    | nil =>
      simp [startsWith]
    | cons c cs =>
      rw [startsWith]
      simp only [Bool.and_eq_true, beq_iff_eq, ih cs]
      constructor
      · rintro ⟨rfl, t, rfl⟩
        exact ⟨t, rfl⟩
      · rintro ⟨t, ht⟩
        rw [List.cons_append] at ht
        obtain ⟨h1, h2⟩ := List.cons.inj ht
        exact ⟨h1, t, h2⟩

theorem jsIncludes_iff (s sub : List Char) :
    jsIncludes s sub = true ↔ ∃ u v, s = u ++ sub ++ v := by
  induction s with
  | nil =>
    simp only [jsIncludes, List.isEmpty_iff]
    constructor
    · rintro rfl
      exact ⟨[], [], rfl⟩
    · rintro ⟨u, v, huv⟩
      have := List.append_eq_nil.mp huv.symm
      exact (List.append_eq_nil.mp this.1).2
  | cons c cs ih =>
    rw [jsIncludes]
    simp only [Bool.or_eq_true, startsWith_iff, ih]
    constructor
    · rintro (⟨t, ht⟩ | ⟨u, v, huv⟩)
      · exact ⟨[], t, by simp [ht]⟩
      · exact ⟨c :: u, v, by simp [huv]⟩
    · rintro ⟨u, v, huv⟩
      cases u with
      | nil =>
        exact Or.inl ⟨v, by simpa using huv⟩
      | cons c' u' =>
        rw [List.cons_append, List.cons_append] at huv
        obtain ⟨h1, h2⟩ := List.cons.inj huv
        exact Or.inr ⟨u', v, h2⟩

/-- C5: for every non-empty search term, `filteredStudents` is exactly the
filter of the student list by the match predicate: it is a sublist of the
input (the original order is kept and the input itself is not changed),
and a student is in the result precisely when it is in the input and its
lowercased name, email or course contains the lowercased term as a
contiguous substring. -/
theorem C5_filter_characterization (students : List Student)
    (term : List Char) (h : term ≠ []) :
    filteredStudents students term = students.filter (studentMatches term) ∧
    List.Sublist (filteredStudents students term) students ∧
    ∀ s, s ∈ filteredStudents students term ↔
      (s ∈ students ∧
        ((∃ u v, jsToLower s.name = u ++ jsToLower term ++ v) ∨
         (∃ u v, jsToLower s.email = u ++ jsToLower term ++ v) ∨
         (∃ u v, jsToLower s.course = u ++ jsToLower term ++ v))) := by
  have hne : term.isEmpty = false := by
    cases term with
    | nil => exact absurd rfl h
    | cons c cs => rfl
  have heq : filteredStudents students term =
      students.filter (studentMatches term) := by
    simp [filteredStudents, hne]
  refine ⟨heq, ?_, ?_⟩
  · rw [heq]
    exact List.filter_sublist students
  · intro s
    rw [heq, List.mem_filter]
    simp only [studentMatches, Bool.or_eq_true, jsIncludes_iff]
    rw [or_assoc]

/-- C5 witness: the spec's example — a roster holding Ann and the search
term "ann" — returns exactly Ann's record. -/
theorem C5_filter_characterization_witness :
    ("ann".data ≠ ([] : List Char)) ∧
    (filteredStudents
        [⟨1, "Ann".data, "a@x.com".data, "CSS".data, []⟩] "ann".data =
      List.filter (studentMatches "ann".data)
        [⟨1, "Ann".data, "a@x.com".data, "CSS".data, []⟩] ∧
    List.Sublist
      (filteredStudents
        [⟨1, "Ann".data, "a@x.com".data, "CSS".data, []⟩] "ann".data)
      [⟨1, "Ann".data, "a@x.com".data, "CSS".data, []⟩] ∧
    ∀ s, s ∈ filteredStudents
        [⟨1, "Ann".data, "a@x.com".data, "CSS".data, []⟩] "ann".data ↔
      (s ∈ [⟨1, "Ann".data, "a@x.com".data, "CSS".data, []⟩] ∧
        ((∃ u v, jsToLower s.name = u ++ jsToLower "ann".data ++ v) ∨
         (∃ u v, jsToLower s.email = u ++ jsToLower "ann".data ++ v) ∨
         (∃ u v, jsToLower s.course = u ++ jsToLower "ann".data ++ v)))) :=
  ⟨by decide,
   C5_filter_characterization
     [⟨1, "Ann".data, "a@x.com".data, "CSS".data, []⟩] "ann".data
     (by decide)⟩

end App

namespace App

/-- C7: a valid save in update mode on a roster containing the edited id
keeps the length and order of the list, replaces every student carrying
the edited id by the new form data with the original id, and leaves every
student with a different id untouched (stated positionally through
`get?`). -/
theorem C7_update_frame (students : List Student) (fd : FormData)
    (eid now : Nat)
    (hval : hasErrors (validateStudent fd) = false)
    (_hmem : ∃ s, s ∈ students ∧ s.id = eid) :
    ((handleSubmit (Mode.update eid) students fd now).2).length =
      students.length ∧
    ∀ i, ((handleSubmit (Mode.update eid) students fd now).2).get? i =
      (students.get? i).map
        (fun s => if s.id = eid then mkStudent fd eid else s) := by
  have hres : (handleSubmit (Mode.update eid) students fd now).2 =
      students.map (fun s => if s.id = eid then mkStudent fd eid else s) := by
    simp [handleSubmit, hval, handleSaveStudent, replaceStudent]
  rw [hres]
  refine ⟨List.length_map students _, ?_⟩
  intro i
  simp [List.get?_eq_getElem?, List.getElem?_map]

/-- C7 witness: editing the sole student with id 7 using valid form data
replaces its fields while keeping id 7 and the roster length. -/
theorem C7_update_frame_witness :
    hasErrors (validateStudent
      ⟨"Jane Doe".data, "jane@doe.com".data, "HTML Basics".data, []⟩) =
        false ∧
    (∃ s, s ∈ [(⟨7, "Old Name".data, "old@mail.com".data,
        "CSS Mastery".data, []⟩ : Student)] ∧ s.id = 7) ∧
    (((handleSubmit (Mode.update 7)
        [⟨7, "Old Name".data, "old@mail.com".data, "CSS Mastery".data, []⟩]
        ⟨"Jane Doe".data, "jane@doe.com".data, "HTML Basics".data, []⟩
        1700000000000).2).length =
      ([(⟨7, "Old Name".data, "old@mail.com".data,
          "CSS Mastery".data, []⟩ : Student)]).length ∧
    ∀ i, ((handleSubmit (Mode.update 7)
        [⟨7, "Old Name".data, "old@mail.com".data, "CSS Mastery".data, []⟩]
        ⟨"Jane Doe".data, "jane@doe.com".data, "HTML Basics".data, []⟩
        1700000000000).2).get? i =
      (([(⟨7, "Old Name".data, "old@mail.com".data,
          "CSS Mastery".data, []⟩ : Student)]).get? i).map
        (fun s => if s.id = 7 then mkStudent
          ⟨"Jane Doe".data, "jane@doe.com".data, "HTML Basics".data, []⟩ 7
          else s)) :=
  ⟨by decide,
   ⟨⟨7, "Old Name".data, "old@mail.com".data, "CSS Mastery".data, []⟩,
    List.mem_singleton.mpr rfl, rfl⟩,
   C7_update_frame
     [⟨7, "Old Name".data, "old@mail.com".data, "CSS Mastery".data, []⟩]
     ⟨"Jane Doe".data, "jane@doe.com".data, "HTML Basics".data, []⟩
     7 1700000000000 (by decide)
     ⟨⟨7, "Old Name".data, "old@mail.com".data, "CSS Mastery".data, []⟩,
      List.mem_singleton.mpr rfl, rfl⟩⟩

end App

namespace App

theorem splitAtChar_sound (ch : Char) :
    ∀ (s a b : List Char), splitAtChar ch s = some (a, b) →
      s = a ++ ch :: b ∧ ch ∉ a := by
  intro s
  induction s with
  | nil =>
    intro a b h
    simp [splitAtChar] at h
  | cons c cs ih =>
    intro a b h
    by_cases hc : c = ch
    · rw [splitAtChar, if_pos hc] at h
      simp only [Option.some.injEq, Prod.mk.injEq] at h
      obtain ⟨rfl, rfl⟩ := h
      simp [hc]
    · rw [splitAtChar, if_neg hc] at h
      cases hsp : splitAtChar ch cs with
      | none =>
        rw [hsp] at h
        exact absurd h (by simp)
      | some p =>
        obtain ⟨a', b'⟩ := p
        rw [hsp] at h
        simp only [Option.some.injEq, Prod.mk.injEq] at h
        obtain ⟨rfl, rfl⟩ := h
        obtain ⟨h1, h2⟩ := ih a' b' hsp
        refine ⟨by simp [h1], ?_⟩
        simp only [List.mem_cons, not_or]
        exact ⟨fun hh => hc hh.symm, h2⟩

theorem splitAtChar_complete (ch : Char) :
    ∀ (a b : List Char), ch ∉ a →
      splitAtChar ch (a ++ ch :: b) = some (a, b) := by
  intro a
  induction a with
  | nil =>
    intro b _
    simp [splitAtChar]
  | cons c a' ih =>
    intro b hnin
    have hc : ¬ c = ch := by
      intro hh
      subst hh
      exact hnin (List.mem_cons_self c a')
    have hnin' : ch ∉ a' := fun hh => hnin (List.mem_cons_of_mem _ hh)
    rw [List.cons_append, splitAtChar, if_neg hc, ih b hnin']

/-- The executable regex test agrees with the decomposition semantics of
the source regex `^[^\s@]+@[^\s@]+\.[^\s@]+$`. -/
theorem validateEmail_iff (s : List Char) :
    validateEmail s = true ↔ codeEmailPattern s := by
  constructor
  · intro h
    unfold validateEmail at h
    cases hsp : splitAtChar '@' s with
    | none =>
      rw [hsp] at h
      simp at h
    | some p =>
      obtain ⟨loc, rest⟩ := p
      rw [hsp] at h
      simp only [Bool.and_eq_true] at h
      obtain ⟨⟨⟨hne, hloc⟩, hrest⟩, hdot⟩ := h
      have hne' : loc ≠ [] := by
        cases loc with
        | nil => simp [List.isEmpty] at hne
        | cons x xs => simp
      rw [List.any_eq_true] at hdot
      obtain ⟨d, hdmem, hd⟩ := hdot
      have hd' : d = '.' := by simpa using hd
      subst hd'
      obtain ⟨hs, _⟩ := splitAtChar_sound '@' s loc rest hsp
      cases rest with
      | nil => simp at hdmem
      | cons r0 rt =>
        have hrt : rt ≠ [] := by
          intro hh
          subst hh
          simp at hdmem
        have hdmem' : '.' ∈ rt.dropLast := by simpa using hdmem
        obtain ⟨L, b, hLb⟩ := (List.eq_nil_or_concat rt).resolve_left hrt
        rw [List.concat_eq_append] at hLb
        have hdrop : rt.dropLast = L := by
          rw [hLb]
          exact List.dropLast_concat
        rw [hdrop] at hdmem'
        obtain ⟨u, v, huv⟩ := List.append_of_mem hdmem'
        subst huv
        subst hLb
        simp only [List.all_cons, List.all_append, List.all_nil,
          Bool.and_eq_true, Bool.and_true] at hrest
        obtain ⟨hr0, ⟨hu, hdotchar, hv⟩, hb⟩ := hrest
        refine ⟨loc, r0 :: u, v ++ [b], ?_, hne', by simp, by simp, hloc,
          ?_, ?_⟩
        · rw [hs]
          simp
        · simp only [List.all_cons, Bool.and_eq_true]
          exact ⟨hr0, hu⟩
        · simp only [List.all_append, List.all_cons, List.all_nil,
            Bool.and_eq_true, Bool.and_true]
          exact ⟨hv, hb⟩
  · rintro ⟨x, y, z, hs, hx, hy, hz, hax, hay, haz⟩
    have hxnin : '@' ∉ x := by
      intro hmem
      have h1 := List.all_eq_true.mp hax '@' hmem
      simp [emailChar] at h1
    subst hs
    unfold validateEmail
    rw [splitAtChar_complete '@' x (y ++ '.' :: z) hxnin]
    simp only [Bool.and_eq_true]
    refine ⟨⟨⟨?_, hax⟩, ?_⟩, ?_⟩
    · simp [hx]
    · simp only [List.all_append, List.all_cons, Bool.and_eq_true]
      refine ⟨hay, ?_, haz⟩
      decide
    · cases y with
      | nil => exact absurd rfl hy
      | cons y0 y' =>
        obtain ⟨L, b, hLb⟩ := (List.eq_nil_or_concat z).resolve_left hz
        rw [List.concat_eq_append] at hLb
        subst hLb
        have hsplit : ((y0 :: y') ++ '.' :: (L ++ [b])).drop 1 =
            (y' ++ '.' :: L) ++ [b] := by
          simp
        rw [hsplit, List.dropLast_concat, List.any_eq_true]
        exact ⟨'.', by simp, by simp⟩

end App

namespace App

/-- C3 counterexample: the email "a@b.c@d" matches the pattern exactly as
the specification words it (final segment = one or more non-whitespace
characters — "c@d" qualifies), yet `validateStudent` reports the
"invalid format" email error for it, because the source regex
`[^\s@]+@[^\s@]+\.[^\s@]+` excludes `@` from the final segment as well,
so the claim's "exactly when it does not match the pattern" fails at this
input. -/
theorem C3_spec_pattern_mismatch :
    specEmailPattern "a@b.c@d".data ∧
    jsTrim "a@b.c@d".data ≠ [] ∧
    (validateStudent
      ⟨"Ann".data, "a@b.c@d".data, "CSS".data, []⟩).email =
        some emailInvalidMsg := by
  refine ⟨⟨"a".data, "b".data, "c@d".data, ?_, ?_, ?_, ?_, ?_, ?_, ?_⟩,
    ?_, ?_⟩ <;> decide

/-- C3 (amended): `validateStudent` reports the "required" email error
exactly when the trimmed email is empty, and otherwise reports the
"invalid format" email error exactly when the email does not match the
pattern one-or-more non-whitespace non-`@` characters, `@`, one-or-more
non-whitespace non-`@` characters, `.`, one-or-more non-whitespace
non-`@` characters (the final segment also excludes `@`, which is the
only change the counterexample forces). -/
theorem C3_email_errors (st : FormData) :
    ((validateStudent st).email = some emailRequiredMsg ↔
      jsTrim st.email = []) ∧
    ((validateStudent st).email = some emailInvalidMsg ↔
      (jsTrim st.email ≠ [] ∧ ¬ codeEmailPattern st.email)) := by
  have hmsg : ¬ (emailInvalidMsg = emailRequiredMsg) := by decide
  have hmsg' : ¬ (emailRequiredMsg = emailInvalidMsg) := by decide
  by_cases h1 : jsTrim st.email = []
  · refine ⟨by simp [validateStudent, h1], ?_⟩
    simp [validateStudent, h1, hmsg']
  · cases h2 : validateEmail st.email with
    | true =>
      have hp : codeEmailPattern st.email := (validateEmail_iff _).mp h2
      refine ⟨by simp [validateStudent, h1, h2], ?_⟩
      simp [validateStudent, h1, h2, hp]
    | false =>
      have hp : ¬ codeEmailPattern st.email := by
        intro hc
        rw [(validateEmail_iff st.email).mpr hc] at h2
        exact Bool.noConfusion h2
      refine ⟨by simp [validateStudent, h1, h2, hmsg], ?_⟩
      simp [validateStudent, h1, h2, hp]

end App
